import Mathlib

/-!
Verification development for the CSV schema analyzer (`csv_analyser.py`).

The source is a single class `CSVSchemaAnalyzer` built around pure
per-column statistics.  We embed the pure computational core shallowly:

* a sampled column (`Column`) is its pandas dtype tag together with the
  list of sampled cell values, each cell being `none` (null/NaN) or the
  string representation of the value — every cross-column comparison in
  the source goes through `str(x)`, so strings lose no information;
* `analyze_column` (source lines 50-76) produces the per-column record
  stored in `column_stats`, or an error when the Python code would raise
  (`int(nan)` on an all-null text column, `ZeroDivisionError` on an
  empty column);
* `find_relationships` (lines 78-108), `suggest_keys` (lines 110-143),
  `_values_compatible` (lines 145-165) and `_calculate_confidence`
  (lines 167-184) are embedded as pure functions over those records;
* ratios that Python keeps as floats are modelled as exact rationals.

The change-detection layer that the design document describes
(`hasChanged` plus the cache gate) has no implementation in the source —
only the helper `_file_hash` (lines 186-192) exists — so that layer is
modelled from the design document and marked as such below.
-/

namespace CsvAnalyser

/-- A sampled column as handed to `analyze_column`: the pandas dtype tag
(for example "int64" or "object") and the sampled cells, where `none`
stands for a null/NaN cell and `some s` for a cell whose `str()` form is
`s`. -/
structure Column where
  dtype : String
  values : List (Option String)
deriving DecidableEq

/-- Length statistics the source computes for "object" (text) columns:
`min`, `max` and mean of the string lengths of the non-null values
(source lines 58-64). -/
structure LenStats where
  min_len : Nat
  max_len : Nat
  avg_len : ℚ
deriving DecidableEq

/-- The record stored in `column_stats[filepath][column]` (source lines
69-76).  The source's float `unique_ratio` is modelled exactly as a
rational, carried here as the field `unique_frac`. -/
structure ColStats where
  dtype : String
  unique_count : Nat
  null_count : Nat
  unique_frac : ℚ
  sample_values : List String
  len_stats : Option LenStats
deriving DecidableEq

/-- The two ways `analyze_column` can raise: `int(lengths.min())` on an
empty length series raises `ValueError` (all-null text column), and
`unique_count / len(series)` raises `ZeroDivisionError` on an empty
column. -/
inductive ProfileError where
  | valueError
  | zeroDivisionError
deriving DecidableEq

/-- Result of profiling one column: the stored statistics record, or the
exception the Python code would raise (caught in `analyze_file`, which
then skips the whole file). -/
inductive ProfileResult where
  | ok (s : ColStats)
  | err (e : ProfileError)
deriving DecidableEq

/-- First-occurrence deduplication, generalized over an accumulator of
already-seen elements. -/
def uniqueInOrderAux [DecidableEq α] (seen : List α) : List α → List α
  | [] => []
  | x :: xs =>
    if x ∈ seen then uniqueInOrderAux seen xs
    else x :: uniqueInOrderAux (x :: seen) xs

/-- Distinct elements of a list in first-occurrence order; this models
both `pandas.Series.unique()` (documented to preserve order of first
appearance) and the construction of a Python `set` from a list when
only the set's cardinality and membership matter. -/
def uniqueInOrder [DecidableEq α] (l : List α) : List α :=
  uniqueInOrderAux [] l

/-- Embedding of `analyze_column` (source lines 50-76).

* `nn` is `series.dropna()` in `str` form; `uniq` is
  `series.dropna().unique()` (first-occurrence order).
* For dtype "object" the length statistics are computed first (lines
  58-64); on an all-null column the length series is empty, so
  `int(lengths.min())` is `int(nan)` and raises `ValueError`.
* `unique_ratio` (here `unique_frac`) is `unique_count / len(series)`
  (line 73); on a zero-row column this raises `ZeroDivisionError`.
* `sample_values` is `list(series.dropna().unique()[:5])` (line 74). -/
def analyze_column (c : Column) : ProfileResult :=
  let nn := c.values.filterMap id
  let uniq := uniqueInOrder nn
  let finish : Option LenStats → ProfileResult := fun ls =>
    if c.values.length = 0 then .err .zeroDivisionError
    else
      .ok { dtype := c.dtype
            unique_count := uniq.length
            null_count := c.values.countP (fun v => v.isNone)
            unique_frac := (uniq.length : ℚ) / (c.values.length : ℚ)
            sample_values := uniq.take 5
            len_stats := ls }
  if c.dtype = "object" then
    match nn.map String.length with
    | [] => .err .valueError
    | l0 :: rest =>
      finish (some { min_len := rest.foldl Nat.min l0
                     max_len := rest.foldl Nat.max l0
                     avg_len := (((l0 :: rest).map fun n => (n : ℚ)).sum)
                                  / (((l0 :: rest).length : ℚ)) })
  else finish none

/-! ## Relationship matcher (`find_relationships`, lines 78-108) -/

/-- One entry of the nested dict `column_stats`: the file path, the
column name and the stored statistics record.  A full `column_stats`
is a list of these in Python-dict insertion order, i.e. the order the
columns were profiled in. -/
structure ColEntry where
  file : String
  col : String
  stats : ColStats
deriving DecidableEq

/-- The grouping key of `find_relationships` (line 85):
`(stats['dtype'], stats['unique_ratio'])`. -/
def keyOf (e : ColEntry) : String × ℚ :=
  (e.stats.dtype, e.stats.unique_frac)

/-- One step of filling the `defaultdict(list)` named `column_groups`
(line 86): append the entry to its key's list, materializing the list at
the end when the key is new.  Python dicts preserve insertion order, so
the group list order and the key order are both significant. -/
def insertGrouped : List ((String × ℚ) × List ColEntry) → ColEntry →
    List ((String × ℚ) × List ColEntry)
  | [], e => [(keyOf e, [e])]
  | (k, es) :: rest, e =>
    if keyOf e = k then (k, es ++ [e]) :: rest
    else (k, es) :: insertGrouped rest e

/-- The `column_groups` dict after the grouping loop of lines 83-86. -/
def buildGroups (entries : List ColEntry) : List ((String × ℚ) × List ColEntry) :=
  entries.foldl insertGrouped []

/-- Python `set(str(x) for x in samples)`, kept as the list of distinct
elements in first-occurrence order (the cells are already in `str`
form); only membership and cardinality of the set are ever used. -/
def strSet (samples : List String) : List String :=
  uniqueInOrder samples

/-- Cardinality of `set1 & set2` for the sample-value sets of the two
sides (used at lines 165 and 181). -/
def interCount (a b : List String) : Nat :=
  ((strSet a).filter (fun s => decide (s ∈ strSet b))).length

/-- Embedding of `_values_compatible` (lines 145-165): same dtype, the
pk side at least as unique as the fk side, and at least one shared
sample value. -/
def values_compatible (pk fk : ColStats) : Bool :=
  if pk.dtype ≠ fk.dtype then false
  else if pk.unique_frac < fk.unique_frac then false
  else decide (0 < interCount pk.sample_values fk.sample_values)

/-- The `sample_boost` of `_calculate_confidence` (lines 179-182):
`overlap / len(pk_samples)` guarded to `0` when the pk sample set is
empty.  Note the denominator is the pk side's set size, not the smaller
of the two sides. -/
def sample_boost (pkSamples fkSamples : List String) : ℚ :=
  if 0 < (strSet pkSamples).length then
    (interCount pkSamples fkSamples : ℚ) / ((strSet pkSamples).length : ℚ)
  else 0

/-- Embedding of `_calculate_confidence` (lines 167-184):
`min(1.0, min(pk_ratio, 1 - fk_ratio) + sample_boost * 0.3)`. -/
def calculate_confidence (pk fk : ColStats) : ℚ :=
  min 1 (min pk.unique_frac (1 - fk.unique_frac)
          + sample_boost pk.sample_values fk.sample_values * (3 / 10))

/-- One record appended to `self.relationships` (lines 102-108). -/
structure Relationship where
  pk_file : String
  pk_column : String
  fk_file : String
  fk_column : String
  confidence : ℚ
deriving DecidableEq

/-- Stable insertion of an entry into a list sorted descending by
`unique_frac`: the entry goes in front of the first strictly less
unique element, hence after any element of equal key. -/
def insertByUniqDesc (e : ColEntry) : List ColEntry → List ColEntry
  | [] => [e]
  | x :: xs =>
    if x.stats.unique_frac ≤ e.stats.unique_frac then e :: x :: xs
    else x :: insertByUniqDesc e xs

/-- The call `sorted(columns, key=unique_ratio, reverse=True)` of lines
92-94.  CPython's sort is stable, and a stable sort's output is uniquely
determined by the comparator and the input order, so this stable
insertion sort computes the very list CPython produces. -/
def sortByUniqDesc (l : List ColEntry) : List ColEntry :=
  l.foldr insertByUniqDesc []

/-- The body of the per-group loop (lines 90-108): sort the group by
descending uniqueness, take the head as the pk candidate, and emit one
relationship for every later entry that passes `_values_compatible`. -/
def groupRels (cols : List ColEntry) : List Relationship :=
  match sortByUniqDesc cols with
  | [] => []
  | pk :: rest =>
    rest.filterMap (fun other =>
      if values_compatible pk.stats other.stats then
        some { pk_file := pk.file
               pk_column := pk.col
               fk_file := other.file
               fk_column := other.col
               confidence := calculate_confidence pk.stats other.stats }
      else none)

/-- Embedding of `find_relationships` (lines 78-108): group all columns
by `(dtype, unique_ratio)`, then for every group with more than one
member whose dtype is not "object", append that group's relationships
in discovery order. -/
def find_relationships (entries : List ColEntry) : List Relationship :=
  (buildGroups entries).foldl
    (fun acc g =>
      if 1 < g.2.length ∧ g.1.1 ≠ "object" then acc ++ groupRels g.2
      else acc)
    []

/-! ## Key suggester (`suggest_keys`, lines 110-143) -/

/-- The per-column score of lines 119-124:
`unique_ratio * (1 - null_count / row_count)`, halved for text columns
that do not look like fixed-width identifiers.  `row_count` is the
file's `row_count` from `file_metadata`.  For an "object" column the
Python code reads `min_len`/`max_len`/`avg_len`, which are present for
every stored text column; the `none` branch is unreachable on stored
statistics and conservatively keeps the penalty. -/
def pk_score (row_count : Nat) (st : ColStats) : ℚ :=
  let base := st.unique_frac * (1 - (st.null_count : ℚ) / (row_count : ℚ))
  if st.dtype = "object" then
    match st.len_stats with
    | some ls =>
      if ls.min_len = ls.max_len ∧ ls.avg_len < 20 then base
      else base * (1 / 2)
    | none => base * (1 / 2)
  else base

/-- The accumulator loop of lines 114-128: fold over the file's columns
keeping `(best_pk, best_score)`, starting from `(None, 0)` and updating
on strict improvement. -/
def bestPkFold (row_count : Nat) (cols : List (String × ColStats)) :
    Option String × ℚ :=
  cols.foldl
    (fun acc c =>
      if acc.2 < pk_score row_count c.2 then (some c.1, pk_score row_count c.2)
      else acc)
    (none, 0)

/-- Lines 130-131: the file gets a suggested primary key only when
`best_pk` is truthy (a non-`None`, non-empty name) and `best_score`
exceeds `0.8`. -/
def suggested_primary_key (row_count : Nat) (cols : List (String × ColStats)) :
    Option String :=
  match bestPkFold row_count cols with
  | (some name, best_score) =>
    if name ≠ "" ∧ (8 : ℚ) / 10 < best_score then some name else none
  | (none, _) => none

/-! ## Change detector, modelled from the design document

Only the content-hash helper `_file_hash` (lines 186-192) exists in the
source; the comparison of a persisted hash map against the current one,
and the gate that skips recomputation, are described in the design
document (§4.1, §5) but have no implementation.  They are modelled from
the document's words below. -/

/-- Modelled from the spec: a persisted or freshly computed
`map<filename, hash>` (§4.1), as an association list keyed by filename.
The absent implementation would be fed by `_file_hash`. -/
def HashMapping : Type := List (String × String)

/-- Filename lookup in a hash mapping. -/
def lookupHash (m : List (String × String)) (name : String) : Option String :=
  (m.find? (fun p => decide (p.1 = name))).map (fun p => p.2)

/-- Modelled from the spec: `hasChanged(cachedHashes, currentHashes)`
(§4.1), absent from the source, "returns true if the set of filenames
differs (added or removed files) or if any shared filename's hash
differs". -/
def hasChanged (cached current : List (String × String)) : Bool :=
  !(cached.all (fun p => (lookupHash current p.1).isSome)
      && current.all (fun p => (lookupHash cached p.1).isSome))
    || cached.any (fun p =>
        match lookupHash current p.1 with
        | some h => decide (h ≠ p.2)
        | none => false)

/-- Modelled from the spec: the cancellation gate of §5 — "if the Change
Detector determines no file changed, the entire
profiling+matching+suggestion pipeline is skipped in favor of loading
the prior persisted state"; absent from the source. -/
def cache_gate {α : Type} (cached current : List (String × String))
    (recomputed prior : α) : α :=
  if hasChanged cached current then recomputed else prior

/-! ## Auxiliary definitions used by the statements -/

/-- Declarative shape of a finished `column_groups` dict: one pair per
key of `ks`, carrying all entries of `p` with that key, in order. -/
def canonicalOn (ks : List (String × ℚ)) (p : List ColEntry) :
    List ((String × ℚ) × List ColEntry) :=
  ks.map (fun k => (k, p.filter (fun e => decide (keyOf e = k))))

/-- Lookup of `column_stats[file][col]` in the flattened entry list. -/
def statsFor (entries : List ColEntry) (f c : String) : Option ColStats :=
  (entries.find? (fun e => decide (e.file = f ∧ e.col = c))).map (fun e => e.stats)

/-- Well-formedness of a `column_stats` dict: a (file, column) pair
appears at most once.  This is automatic for the nested Python dict. -/
def NodupCols (entries : List ColEntry) : Prop :=
  (entries.map (fun e => (e.file, e.col))).Nodup

instance : DecidablePred NodupCols := fun entries => by
  unfold NodupCols
  infer_instance

/-- The design document's value-overlap formula (§4.3 step 3), written
from its words for comparison with the source's `sample_boost`:
"`overlap_ratio = |set1 ∩ set2| / min(|set1|, |set2|)`, defined as 0
when either set is empty". -/
def overlapRatioSpec (s1 s2 : List String) : ℚ :=
  if s1.toFinset = ∅ ∨ s2.toFinset = ∅ then 0
  else ((s1.toFinset ∩ s2.toFinset).card : ℚ)
        / (min s1.toFinset.card s2.toFinset.card : ℚ)

/-- The identifier-shape exemption of lines 122-124, read off a stored
statistics record: all value lengths equal and mean length below 20. -/
def looksLikeId (st : ColStats) : Bool :=
  match st.len_stats with
  | some ls => decide (ls.min_len = ls.max_len ∧ ls.avg_len < 20)
  | none => false

/-! ## Basic lemmas about first-occurrence deduplication -/

theorem mem_uniqueInOrderAux [DecidableEq α] {a : α} :
    ∀ (seen l : List α), a ∈ uniqueInOrderAux seen l ↔ a ∈ l ∧ a ∉ seen := by
  intro seen l
  induction l generalizing seen with
  | nil => simp [uniqueInOrderAux]
  | cons x xs ih =>
    by_cases hx : x ∈ seen
    · simp only [uniqueInOrderAux, if_pos hx, ih, List.mem_cons]
      by_cases hax : a = x
      · subst hax
        simp [hx]
      · simp [hax]
    · simp only [uniqueInOrderAux, if_neg hx, List.mem_cons, ih]
      by_cases hax : a = x
      · subst hax
        simp [hx]
      · simp [hax]

theorem mem_uniqueInOrder [DecidableEq α] {a : α} {l : List α} :
    a ∈ uniqueInOrder l ↔ a ∈ l := by
  simp [uniqueInOrder, mem_uniqueInOrderAux]

theorem nodup_uniqueInOrderAux [DecidableEq α] :
    ∀ (seen l : List α), (uniqueInOrderAux seen l).Nodup := by
  intro seen l
  induction l generalizing seen with
  | nil => simp [uniqueInOrderAux]
  | cons x xs ih =>
    by_cases hx : x ∈ seen
    · simpa [uniqueInOrderAux, if_pos hx] using ih seen
    · simp only [uniqueInOrderAux, if_neg hx, List.nodup_cons]
      refine ⟨fun hmem => ?_, ih (x :: seen)⟩
      exact ((mem_uniqueInOrderAux (x :: seen) xs).1 hmem).2 (List.mem_cons_self x seen)

theorem nodup_uniqueInOrder [DecidableEq α] (l : List α) :
    (uniqueInOrder l).Nodup :=
  nodup_uniqueInOrderAux [] l

theorem sublist_uniqueInOrderAux [DecidableEq α] :
    ∀ (seen l : List α), (uniqueInOrderAux seen l).Sublist l := by
  intro seen l
  induction l generalizing seen with
  | nil => simp [uniqueInOrderAux]
  | cons x xs ih =>
    by_cases hx : x ∈ seen
    · exact (by simpa [uniqueInOrderAux, if_pos hx] using ih seen :
        (uniqueInOrderAux seen (x :: xs)).Sublist xs).trans (List.sublist_cons_self x xs)
    · simpa [uniqueInOrderAux, if_neg hx] using (ih (x :: seen)).cons₂ x

theorem sublist_uniqueInOrder [DecidableEq α] (l : List α) :
    (uniqueInOrder l).Sublist l :=
  sublist_uniqueInOrderAux [] l

theorem length_uniqueInOrder_le [DecidableEq α] (l : List α) :
    (uniqueInOrder l).length ≤ l.length :=
  (sublist_uniqueInOrder l).length_le

theorem uniqueInOrderAux_append_single [DecidableEq α] (a : α) :
    ∀ (seen l : List α),
      uniqueInOrderAux seen (l ++ [a]) =
        if a ∈ seen ∨ a ∈ l then uniqueInOrderAux seen l
        else uniqueInOrderAux seen l ++ [a] := by
  intro seen l
  induction l generalizing seen with
  | nil =>
    by_cases ha : a ∈ seen <;> simp [uniqueInOrderAux, ha]
  | cons x xs ih =>
    by_cases hx : x ∈ seen
    · rw [List.cons_append, uniqueInOrderAux, if_pos hx, ih seen,
        uniqueInOrderAux, if_pos hx]
      by_cases hax : a = x
      · subst hax
        simp [hx]
      · simp [List.mem_cons, hax]
    · rw [List.cons_append, uniqueInOrderAux, if_neg hx, ih (x :: seen),
        uniqueInOrderAux, if_neg hx]
      by_cases hax : a = x
      · subst hax
        simp [List.mem_cons_self]
      · by_cases has : a ∈ seen ∨ a ∈ xs
        · have h1 : a ∈ x :: seen ∨ a ∈ xs := by
            rcases has with h | h
            · exact Or.inl (List.mem_cons_of_mem _ h)
            · exact Or.inr h
          have h2 : a ∈ seen ∨ a ∈ x :: xs := by
            rcases has with h | h
            · exact Or.inl h
            · exact Or.inr (List.mem_cons_of_mem _ h)
          rw [if_pos h1, if_pos h2]
        · push_neg at has
          have h1 : ¬(a ∈ x :: seen ∨ a ∈ xs) := by
            simp [List.mem_cons, hax, has.1, has.2]
          have h2 : ¬(a ∈ seen ∨ a ∈ x :: xs) := by
            simp [List.mem_cons, hax, has.1, has.2]
          rw [if_neg h1, if_neg h2, List.cons_append]

theorem uniqueInOrder_append_single [DecidableEq α] (l : List α) (a : α) :
    uniqueInOrder (l ++ [a]) =
      if a ∈ l then uniqueInOrder l else uniqueInOrder l ++ [a] := by
  rw [uniqueInOrder, uniqueInOrderAux_append_single]
  simp [uniqueInOrder]

/-! ## The grouping fold in declarative form -/

theorem canonicalOn_append_single_notmem (ks : List (String × ℚ))
    (p : List ColEntry) (e : ColEntry) (h : keyOf e ∉ ks) :
    canonicalOn ks (p ++ [e]) = canonicalOn ks p := by
  unfold canonicalOn
  refine List.map_congr_left ?_
  intro k hk
  have hne : ¬(keyOf e = k) := fun hh => h (hh ▸ hk)
  simp [List.filter_append, hne]

theorem insertGrouped_canonicalOn (e : ColEntry) :
    ∀ (ks : List (String × ℚ)) (p : List ColEntry), ks.Nodup →
      (keyOf e ∉ ks → p.filter (fun x => decide (keyOf x = keyOf e)) = []) →
      insertGrouped (canonicalOn ks p) e =
        canonicalOn (if keyOf e ∈ ks then ks else ks ++ [keyOf e]) (p ++ [e]) := by
  intro ks
  induction ks with
  | nil =>
    intro p _ hnew
    simp only [canonicalOn, List.map_nil, insertGrouped, List.not_mem_nil,
      if_false, List.nil_append, List.map_cons]
    rw [List.filter_append, hnew (by simp)]
    simp
  | cons k ks ih =>
    intro p hnd hnew
    by_cases hek : keyOf e = k
    · have hks : keyOf e ∈ k :: ks := hek ▸ List.mem_cons_self k ks
      have hnotks : keyOf e ∉ ks := hek ▸ (List.nodup_cons.1 hnd).1
      have htail := canonicalOn_append_single_notmem ks p e hnotks
      simp only [canonicalOn] at htail
      rw [if_pos hks]
      simp only [canonicalOn, List.map_cons, insertGrouped, if_pos hek]
      rw [htail]
      simp [List.filter_append, hek]
    · have hcond : keyOf e ∈ k :: ks ↔ keyOf e ∈ ks := by
        simp [List.mem_cons, hek]
      have hnew' : keyOf e ∉ ks → p.filter (fun x => decide (keyOf x = keyOf e)) = [] := by
        intro hni
        exact hnew (by simp [List.mem_cons, hek, hni])
      have hfilt : (p ++ [e]).filter (fun x => decide (keyOf x = k)) =
          p.filter (fun x => decide (keyOf x = k)) := by
        simp [List.filter_append, hek]
      by_cases hks : keyOf e ∈ ks
      · rw [if_pos (hcond.2 hks)]
        simp only [canonicalOn, List.map_cons, insertGrouped, if_neg hek]
        rw [hfilt]
        have := ih p (List.nodup_cons.1 hnd).2 hnew'
        rw [if_pos hks] at this
        simp only [canonicalOn] at this
        rw [this]
      · rw [if_neg (fun hh => hks (hcond.1 hh))]
        simp only [canonicalOn, List.map_cons, insertGrouped, if_neg hek,
          List.cons_append, List.map_append]
        rw [hfilt]
        have := ih p (List.nodup_cons.1 hnd).2 hnew'
        rw [if_neg hks] at this
        simp only [canonicalOn, List.map_append] at this
        rw [this]
        simp

theorem buildGroups_loop :
    ∀ (l p : List ColEntry),
      l.foldl insertGrouped (canonicalOn (uniqueInOrder (p.map keyOf)) p) =
        canonicalOn (uniqueInOrder ((p ++ l).map keyOf)) (p ++ l) := by
  intro l
  induction l with
  | nil => intro p; simp
  | cons e l ih =>
    intro p
    rw [List.foldl_cons]
    have hstep := insertGrouped_canonicalOn e (uniqueInOrder (p.map keyOf)) p
      (nodup_uniqueInOrder _)
      (fun hni => by
        have : keyOf e ∉ p.map keyOf := fun hm => hni (mem_uniqueInOrder.2 hm)
        refine List.filter_eq_nil_iff.2 ?_
        intro x hx
        simp only [decide_eq_true_eq]
        exact fun hh => this (hh ▸ List.mem_map_of_mem keyOf hx))
    have hkeys : uniqueInOrder ((p ++ [e]).map keyOf) =
        if keyOf e ∈ uniqueInOrder (p.map keyOf) then uniqueInOrder (p.map keyOf)
        else uniqueInOrder (p.map keyOf) ++ [keyOf e] := by
      rw [List.map_append, List.map_singleton, uniqueInOrder_append_single]
      by_cases hm : keyOf e ∈ p.map keyOf
      · rw [if_pos hm, if_pos (mem_uniqueInOrder.2 hm)]
      · rw [if_neg hm, if_neg (fun hh => hm (mem_uniqueInOrder.1 hh))]
    rw [hstep]
    have happ : p ++ e :: l = (p ++ [e]) ++ l := by simp
    rw [happ, ← ih (p ++ [e]), hkeys]

/-- The `column_groups` dict of lines 83-86, in closed form: the keys in
first-encounter order, each with the sublist of entries carrying it. -/
theorem buildGroups_eq (entries : List ColEntry) :
    buildGroups entries =
      canonicalOn (uniqueInOrder (entries.map keyOf)) entries := by
  have := buildGroups_loop entries []
  simpa [buildGroups, canonicalOn, uniqueInOrder, uniqueInOrderAux] using this

/-! ## Structure of the matcher output -/

theorem foldl_append_groups (f : ((String × ℚ) × List ColEntry) → List Relationship)
    (P : ((String × ℚ) × List ColEntry) → Prop) [DecidablePred P] :
    ∀ (gs : List ((String × ℚ) × List ColEntry)) (acc : List Relationship),
      gs.foldl (fun a g => if P g then a ++ f g else a) acc =
        acc ++ gs.flatMap (fun g => if P g then f g else []) := by
  intro gs
  induction gs with
  | nil => intro acc; simp
  | cons g gs ih =>
    intro acc
    rw [List.foldl_cons, List.flatMap_cons]
    by_cases hg : P g
    · rw [if_pos hg, if_pos hg, ih, List.append_assoc]
    · rw [if_neg hg, if_neg hg, ih, List.nil_append]

/-- The matcher output in closed form: one block of candidates per
`(dtype, unique_ratio)` key in first-encounter order, each block built
from the entries carrying that key. -/
theorem find_relationships_closed_form (entries : List ColEntry) :
    find_relationships entries =
      (uniqueInOrder (entries.map keyOf)).flatMap (fun k =>
        let cols := entries.filter (fun e => decide (keyOf e = k))
        if 1 < cols.length ∧ k.1 ≠ "object" then groupRels cols else []) := by
  rw [find_relationships, buildGroups_eq,
    foldl_append_groups (fun g => groupRels g.2)
      (fun g => 1 < g.2.length ∧ g.1.1 ≠ "object"), List.nil_append,
    canonicalOn, List.flatMap_map]

theorem mem_insertByUniqDesc {a e : ColEntry} :
    ∀ (l : List ColEntry), a ∈ insertByUniqDesc e l ↔ a = e ∨ a ∈ l := by
  intro l
  induction l with
  | nil => simp [insertByUniqDesc]
  | cons x xs ih =>
    by_cases hx : x.stats.unique_frac ≤ e.stats.unique_frac
    · simp [insertByUniqDesc, if_pos hx, List.mem_cons]
    · simp only [insertByUniqDesc, if_neg hx, List.mem_cons, ih]
      tauto

theorem mem_sortByUniqDesc {a : ColEntry} :
    ∀ (l : List ColEntry), a ∈ sortByUniqDesc l ↔ a ∈ l := by
  intro l
  induction l with
  | nil => simp [sortByUniqDesc]
  | cons x xs ih =>
    rw [sortByUniqDesc, List.foldr_cons, mem_insertByUniqDesc, List.mem_cons]
    rw [sortByUniqDesc] at ih
    rw [ih]

/-- Every relationship the matcher emits is built from two entries of
the input that share the grouping key (hence dtype and uniqueness
ratio), with a non-"object" dtype, a passing `_values_compatible`
check, and the confidence of `_calculate_confidence`. -/
theorem mem_find_relationships {entries : List ColEntry} {rel : Relationship}
    (h : rel ∈ find_relationships entries) :
    ∃ pk other : ColEntry, pk ∈ entries ∧ other ∈ entries ∧
      keyOf pk = keyOf other ∧ pk.stats.dtype ≠ "object" ∧
      values_compatible pk.stats other.stats = true ∧
      rel = { pk_file := pk.file, pk_column := pk.col,
              fk_file := other.file, fk_column := other.col,
              confidence := calculate_confidence pk.stats other.stats } := by
  rw [find_relationships_closed_form] at h
  rcases List.mem_flatMap.1 h with ⟨k, hk, hrel⟩
  have hkmem : k ∈ entries.map keyOf := mem_uniqueInOrder.1 hk
  set cols := entries.filter (fun e => decide (keyOf e = k)) with hcols
  have hcolkey : ∀ x ∈ cols, keyOf x = k := by
    intro x hx
    have := (List.mem_filter.1 (hcols ▸ hx)).2
    exact of_decide_eq_true this
  have hcolmem : ∀ x ∈ cols, x ∈ entries := by
    intro x hx
    exact (List.mem_filter.1 (hcols ▸ hx)).1
  by_cases hcond : 1 < cols.length ∧ k.1 ≠ "object"
  · rw [if_pos hcond] at hrel
    unfold groupRels at hrel
    rcases hsort : sortByUniqDesc cols with _ | ⟨pk, rest⟩
    · rw [hsort] at hrel
      exact absurd hrel (List.not_mem_nil rel)
    · rw [hsort] at hrel
      rcases List.mem_filterMap.1 hrel with ⟨other, hother, hmk⟩
      have hpk : pk ∈ cols := mem_sortByUniqDesc cols |>.1 (hsort ▸ List.mem_cons_self pk rest)
      have hoth : other ∈ cols := mem_sortByUniqDesc cols |>.1
        (hsort ▸ List.mem_cons_of_mem pk hother)
      have hcompat : values_compatible pk.stats other.stats = true := by
        by_contra hc
        rw [if_neg (fun hh => hc hh)] at hmk
        exact Option.noConfusion hmk
      rw [if_pos hcompat] at hmk
      refine ⟨pk, other, hcolmem pk hpk, hcolmem other hoth, ?_, ?_, hcompat, ?_⟩
      · rw [hcolkey pk hpk, hcolkey other hoth]
      · intro hobj
        apply hcond.2
        have hfst := congrArg Prod.fst (hcolkey pk hpk)
        simp only [keyOf] at hfst
        rw [← hfst]
        exact hobj
      · exact (Option.some.inj hmk).symm
  · rw [if_neg hcond] at hrel
    exact absurd hrel (List.not_mem_nil rel)

theorem statsFor_of_mem {entries : List ColEntry} (hnd : NodupCols entries)
    {e : ColEntry} (he : e ∈ entries) :
    statsFor entries e.file e.col = some e.stats := by
  induction entries with
  | nil => exact absurd he (List.not_mem_nil e)
  | cons x xs ih =>
    unfold NodupCols at hnd
    rw [List.map_cons, List.nodup_cons] at hnd
    have hnd' : NodupCols xs := hnd.2
    by_cases hx : x.file = e.file ∧ x.col = e.col
    · have hxe : e = x := by
        rcases List.mem_cons.1 he with rfl | hmem
        · rfl
        · exfalso
          apply hnd.1
          have hin : (e.file, e.col) ∈ xs.map (fun e => (e.file, e.col)) :=
            List.mem_map_of_mem _ hmem
          rw [hx.1, hx.2]
          exact hin
      subst hxe
      unfold statsFor
      rw [List.find?_cons_of_pos _ (by simp)]
      rfl
    · have hne : e ∈ xs := by
        rcases List.mem_cons.1 he with rfl | hmem
        · exact absurd ⟨rfl, rfl⟩ hx
        · exact hmem
      unfold statsFor
      rw [List.find?_cons_of_neg _ (by simpa using hx)]
      exact ih hnd' hne

/-- Both sides of every emitted relationship resolve in `column_stats`
to records with the same dtype (which is not "object") and the same
uniqueness ratio. -/
theorem rel_sides_stats {entries : List ColEntry} (hnd : NodupCols entries)
    {rel : Relationship} (h : rel ∈ find_relationships entries) :
    ∃ s1 s2 : ColStats,
      statsFor entries rel.pk_file rel.pk_column = some s1 ∧
      statsFor entries rel.fk_file rel.fk_column = some s2 ∧
      s1.dtype = s2.dtype ∧ s1.unique_frac = s2.unique_frac ∧
      s1.dtype ≠ "object" := by
  rcases mem_find_relationships h with
    ⟨pk, other, hpk, hoth, hkey, hobj, _, rfl⟩
  refine ⟨pk.stats, other.stats, ?_, ?_, ?_, ?_, hobj⟩
  · exact statsFor_of_mem hnd hpk
  · exact statsFor_of_mem hnd hoth
  · exact congrArg Prod.fst hkey
  · exact congrArg Prod.snd hkey

/-! ## Sample sets as finite sets -/

theorem toFinset_uniqueInOrder [DecidableEq α] (l : List α) :
    (uniqueInOrder l).toFinset = l.toFinset := by
  apply Finset.ext
  intro a
  simp [List.mem_toFinset, mem_uniqueInOrder]

theorem length_strSet (l : List String) :
    (strSet l).length = l.toFinset.card := by
  rw [strSet, ← List.toFinset_card_of_nodup (nodup_uniqueInOrder l),
    toFinset_uniqueInOrder]

theorem interCount_eq_card (a b : List String) :
    interCount a b = (a.toFinset ∩ b.toFinset).card := by
  have hnd : ((strSet a).filter (fun s => decide (s ∈ strSet b))).Nodup :=
    (nodup_uniqueInOrder a).filter _
  rw [interCount, ← List.toFinset_card_of_nodup hnd]
  congr 1
  apply Finset.ext
  intro x
  simp [List.mem_toFinset, List.mem_filter, strSet, mem_uniqueInOrder,
    Finset.mem_inter]

/-! ## Shape of a successfully profiled column -/

theorem analyze_column_ok {c : Column} {s : ColStats}
    (h : analyze_column c = .ok s) :
    0 < c.values.length ∧
    s.dtype = c.dtype ∧
    s.unique_count = (uniqueInOrder (c.values.filterMap id)).length ∧
    s.null_count = c.values.countP (fun v => v.isNone) ∧
    s.unique_frac = ((uniqueInOrder (c.values.filterMap id)).length : ℚ)
        / (c.values.length : ℚ) ∧
    s.sample_values = (uniqueInOrder (c.values.filterMap id)).take 5 := by
  simp only [analyze_column] at h
  split at h
  · split at h
    · exact absurd h (by simp)
    · split at h
      · exact absurd h (by simp)
      · rename_i hlen
        injection h with hs
        subst hs
        exact ⟨Nat.pos_of_ne_zero hlen, rfl, rfl, rfl, rfl, rfl⟩
  · split at h
    · exact absurd h (by simp)
    · rename_i hlen
      injection h with hs
      subst hs
      exact ⟨Nat.pos_of_ne_zero hlen, rfl, rfl, rfl, rfl, rfl⟩

/-! ## The primary-key accumulator loop -/

theorem bestPkFold_loop (rc : Nat) :
    ∀ (cols : List (String × ColStats)) (acc : Option String × ℚ),
      acc.2 ≤ (cols.foldl (fun acc c =>
          if acc.2 < pk_score rc c.2 then (some c.1, pk_score rc c.2) else acc) acc).2 ∧
      (∀ p ∈ cols, pk_score rc p.2 ≤ (cols.foldl (fun acc c =>
          if acc.2 < pk_score rc c.2 then (some c.1, pk_score rc c.2) else acc) acc).2) ∧
      ((cols.foldl (fun acc c =>
          if acc.2 < pk_score rc c.2 then (some c.1, pk_score rc c.2) else acc) acc) = acc ∨
        ∃ n st, (cols.foldl (fun acc c =>
            if acc.2 < pk_score rc c.2 then (some c.1, pk_score rc c.2) else acc) acc).1 =
              some n ∧
          (n, st) ∈ cols ∧
          pk_score rc st = (cols.foldl (fun acc c =>
            if acc.2 < pk_score rc c.2 then (some c.1, pk_score rc c.2) else acc) acc).2) := by
  intro cols
  induction cols with
  | nil =>
    intro acc
    exact ⟨le_refl _, by simp, Or.inl rfl⟩
  | cons c cols ih =>
    intro acc
    rw [List.foldl_cons]
    obtain ⟨ih1, ih2, ih3⟩ :=
      ih (if acc.2 < pk_score rc c.2 then (some c.1, pk_score rc c.2) else acc)
    by_cases hlt : acc.2 < pk_score rc c.2
    · rw [if_pos hlt] at ih1 ih2 ih3 ⊢
      refine ⟨le_trans (le_of_lt hlt) ih1, ?_, ?_⟩
      · intro p hp
        rcases List.mem_cons.1 hp with rfl | hmem
        · exact le_trans (le_refl _) ih1
        · exact ih2 p hmem
      · rcases ih3 with heq | ⟨n, st, h1, h2, h3⟩
        · refine Or.inr ⟨c.1, c.2, ?_, List.mem_cons_self c cols, ?_⟩
          · rw [heq]
          · rw [heq]
        · exact Or.inr ⟨n, st, h1, List.mem_cons_of_mem c h2, h3⟩
    · rw [if_neg hlt] at ih1 ih2 ih3 ⊢
      refine ⟨ih1, ?_, ?_⟩
      · intro p hp
        rcases List.mem_cons.1 hp with rfl | hmem
        · exact le_trans (not_lt.1 hlt) ih1
        · exact ih2 p hmem
      · rcases ih3 with heq | ⟨n, st, h1, h2, h3⟩
        · exact Or.inl heq
        · exact Or.inr ⟨n, st, h1, List.mem_cons_of_mem c h2, h3⟩

/-! ## Hash-mapping lookups -/

theorem lookupHash_self {m : List (String × String)}
    (hnd : (m.map Prod.fst).Nodup) {p : String × String} (hp : p ∈ m) :
    lookupHash m p.1 = some p.2 := by
  induction m with
  | nil => exact absurd hp (List.not_mem_nil p)
  | cons x xs ih =>
    rw [List.map_cons, List.nodup_cons] at hnd
    by_cases hx : x.1 = p.1
    · have hxe : p = x := by
        rcases List.mem_cons.1 hp with rfl | hmem
        · rfl
        · exact absurd (hx ▸ List.mem_map_of_mem Prod.fst hmem) hnd.1
      subst hxe
      rw [lookupHash, List.find?_cons_of_pos _ (by simp)]
      rfl
    · have hmem : p ∈ xs := by
        rcases List.mem_cons.1 hp with rfl | hmem
        · exact absurd rfl hx
        · exact hmem
      rw [lookupHash, List.find?_cons_of_neg _ (by simpa using hx)]
      exact ih hnd.2 hmem

theorem lookupHash_eq_none {m : List (String × String)} {n : String}
    (hn : n ∉ m.map Prod.fst) : lookupHash m n = none := by
  rw [lookupHash, List.find?_eq_none.2, Option.map_none']
  intro x hx
  simp only [decide_eq_true_eq]
  exact fun hh => hn (hh ▸ List.mem_map_of_mem Prod.fst hx)

/-- C9 — Change detection, modelled from the design document since only
`_file_hash` exists in the source.  Over well-formed hash mappings: an
unchanged directory reports no change and the gate loads the prior
state; adding a file, removing a file, or changing one file's hash each
report a change. -/
theorem hasChanged_cache_correct (α : Type) (m m1 m2 : List (String × String))
    (n h h2 : String) (recomputed prior : α)
    (hnd : (m.map Prod.fst).Nodup)
    (hn : n ∉ m.map Prod.fst)
    (hnd2 : ((m1 ++ (n, h) :: m2).map Prod.fst).Nodup)
    (hne : h2 ≠ h) :
    hasChanged m m = false ∧
    cache_gate m m recomputed prior = prior ∧
    hasChanged m ((n, h) :: m) = true ∧
    hasChanged ((n, h) :: m) m = true ∧
    hasChanged (m1 ++ (n, h) :: m2) (m1 ++ (n, h2) :: m2) = true := by
  have hnone : lookupHash m n = none := lookupHash_eq_none hn
  have hself : hasChanged m m = false := by
    have hall : m.all (fun p => (lookupHash m p.1).isSome) = true :=
      List.all_eq_true.2 (fun p hp => by rw [lookupHash_self hnd hp]; rfl)
    have hany : m.any (fun p =>
        match lookupHash m p.1 with
        | some hh => decide (hh ≠ p.2)
        | none => false) = false := by
      rw [List.any_eq_false]
      intro p hp
      rw [lookupHash_self hnd hp]
      simp
    rw [hasChanged, hall, hany]
    rfl
  refine ⟨hself, ?_, ?_, ?_, ?_⟩
  · rw [cache_gate, hself]
    rfl
  · have hall2 : ((n, h) :: m).all (fun p => (lookupHash m p.1).isSome) = false := by
      rw [List.all_cons]
      rw [show lookupHash m (n, h).1 = none from hnone]
      rfl
    rw [hasChanged, hall2]
    simp
  · have hall2 : ((n, h) :: m).all (fun p => (lookupHash m p.1).isSome) = false := by
      rw [List.all_cons]
      rw [show lookupHash m (n, h).1 = none from hnone]
      rfl
    rw [hasChanged, hall2]
    simp
  · have hm1 : n ∉ m1.map Prod.fst := by
      intro hmem
      rw [List.map_append, List.map_cons] at hnd2
      have := List.disjoint_of_nodup_append hnd2
      exact this hmem (List.mem_cons_self n _)
    have hlook : lookupHash (m1 ++ (n, h2) :: m2) n = some h2 := by
      rw [lookupHash, List.find?_append]
      rw [List.find?_eq_none.2 (fun x hx => by
        simp only [decide_eq_true_eq]
        exact fun hh => hm1 (hh ▸ List.mem_map_of_mem Prod.fst hx))]
      rw [Option.none_or, List.find?_cons_of_pos _ (by simp)]
      rfl
    have hany : (m1 ++ (n, h) :: m2).any (fun p =>
        match lookupHash (m1 ++ (n, h2) :: m2) p.1 with
        | some hh => decide (hh ≠ p.2)
        | none => false) = true := by
      rw [List.any_eq_true]
      refine ⟨(n, h), by simp, ?_⟩
      rw [show lookupHash (m1 ++ (n, h2) :: m2) (n, h).1 = some h2 from hlook]
      simpa using hne
    rw [hasChanged, hany]
    simp

/-- Witness for C9 at a concrete two-file directory: "c.csv" is the
added / removed / modified file. -/
theorem hasChanged_cache_correct_witness :
    (((([("a.csv", "h1"), ("b.csv", "h2")] : List (String × String)).map
          Prod.fst).Nodup) ∧
      ("c.csv" ∉ ([("a.csv", "h1"), ("b.csv", "h2")] : List (String × String)).map
          Prod.fst) ∧
      ((([("a.csv", "h1")] ++ ("c.csv", "h3") :: [] : List (String × String)).map
          Prod.fst).Nodup) ∧
      ("h4" ≠ "h3")) ∧
    (hasChanged [("a.csv", "h1"), ("b.csv", "h2")] [("a.csv", "h1"), ("b.csv", "h2")] = false ∧
      cache_gate [("a.csv", "h1"), ("b.csv", "h2")] [("a.csv", "h1"), ("b.csv", "h2")]
        (1 : Nat) 2 = 2 ∧
      hasChanged [("a.csv", "h1"), ("b.csv", "h2")]
        (("c.csv", "h3") :: [("a.csv", "h1"), ("b.csv", "h2")]) = true ∧
      hasChanged (("c.csv", "h3") :: [("a.csv", "h1"), ("b.csv", "h2")])
        [("a.csv", "h1"), ("b.csv", "h2")] = true ∧
      hasChanged ([("a.csv", "h1")] ++ ("c.csv", "h3") :: [])
        ([("a.csv", "h1")] ++ ("c.csv", "h4") :: []) = true) :=
  ⟨⟨by decide, by decide, by decide, by decide⟩,
    hasChanged_cache_correct Nat [("a.csv", "h1"), ("b.csv", "h2")] [("a.csv", "h1")] []
      "c.csv" "h3" "h4" 1 2 (by decide) (by decide) (by decide) (by decide)⟩

/-! ## Claim C1 -/

/-- C1 (amended): the matcher never emits a candidate whose two columns
have differing dtype — both sides of every emitted relationship resolve
in `column_stats` to records of equal dtype.  The same-file half of the
original claim is false, see the counterexample. -/
theorem find_relationships_same_dtype (entries : List ColEntry)
    (hnd : NodupCols entries) :
    ∀ rel ∈ find_relationships entries,
      ∃ s1 s2 : ColStats,
        statsFor entries rel.pk_file rel.pk_column = some s1 ∧
        statsFor entries rel.fk_file rel.fk_column = some s2 ∧
        s1.dtype = s2.dtype := by
  intro rel hrel
  rcases rel_sides_stats hnd hrel with ⟨s1, s2, h1, h2, h3, -, -⟩
  exact ⟨s1, s2, h1, h2, h3⟩

/-- C1 witness: two equally unique numeric columns in different files
with a shared sample value produce a candidate, and the theorem applies. -/
theorem find_relationships_same_dtype_witness :
    NodupCols
      [⟨"orders.csv", "cust", ⟨"int64", 1, 0, 1/2, ["1"], none⟩⟩,
       ⟨"customers.csv", "id", ⟨"int64", 1, 0, 1/2, ["1"], none⟩⟩] ∧
    (∀ rel ∈ find_relationships
        [⟨"orders.csv", "cust", ⟨"int64", 1, 0, 1/2, ["1"], none⟩⟩,
         ⟨"customers.csv", "id", ⟨"int64", 1, 0, 1/2, ["1"], none⟩⟩],
      ∃ s1 s2 : ColStats,
        statsFor
          [⟨"orders.csv", "cust", ⟨"int64", 1, 0, 1/2, ["1"], none⟩⟩,
           ⟨"customers.csv", "id", ⟨"int64", 1, 0, 1/2, ["1"], none⟩⟩]
          rel.pk_file rel.pk_column = some s1 ∧
        statsFor
          [⟨"orders.csv", "cust", ⟨"int64", 1, 0, 1/2, ["1"], none⟩⟩,
           ⟨"customers.csv", "id", ⟨"int64", 1, 0, 1/2, ["1"], none⟩⟩]
          rel.fk_file rel.fk_column = some s2 ∧
        s1.dtype = s2.dtype) :=
  ⟨by decide,
    find_relationships_same_dtype
      [⟨"orders.csv", "cust", ⟨"int64", 1, 0, 1/2, ["1"], none⟩⟩,
       ⟨"customers.csv", "id", ⟨"int64", 1, 0, 1/2, ["1"], none⟩⟩] (by decide)⟩

/-- C1 counterexample: two profiled columns of the same file "a.csv"
(equal dtype and uniqueness, overlapping samples) are paired, so a
candidate whose two columns come from the same file is emitted. -/
theorem c1_same_file_counterexample :
    analyze_column ⟨"int64", [some "1", some "1"]⟩ =
      .ok ⟨"int64", 1, 0, 1/2, ["1"], none⟩ ∧
    find_relationships
        [⟨"a.csv", "x", ⟨"int64", 1, 0, 1/2, ["1"], none⟩⟩,
         ⟨"a.csv", "y", ⟨"int64", 1, 0, 1/2, ["1"], none⟩⟩] =
      [{ pk_file := "a.csv", pk_column := "x", fk_file := "a.csv",
         fk_column := "y", confidence := 4/5 }] :=
  ⟨by with_unfolding_all rfl, by with_unfolding_all rfl⟩

/-! ## Claim C10 -/

/-- C10: both sides of every emitted relationship resolve in
`column_stats` to records with exactly equal uniqueness ratio, because
candidates are only formed inside a `(dtype, unique_ratio)` group. -/
theorem rel_sides_equal_uniqueness (entries : List ColEntry)
    (hnd : NodupCols entries) :
    ∀ rel ∈ find_relationships entries,
      ∃ s1 s2 : ColStats,
        statsFor entries rel.pk_file rel.pk_column = some s1 ∧
        statsFor entries rel.fk_file rel.fk_column = some s2 ∧
        s1.unique_frac = s2.unique_frac := by
  intro rel hrel
  rcases rel_sides_stats hnd hrel with ⟨s1, s2, h1, h2, -, h4, -⟩
  exact ⟨s1, s2, h1, h2, h4⟩

/-- C10 witness: the theorem applied to a concrete pair of equally
unique numeric columns in two files. -/
theorem rel_sides_equal_uniqueness_witness :
    NodupCols
      [⟨"t1.csv", "k", ⟨"int64", 2, 0, 1/3, ["1", "2"], none⟩⟩,
       ⟨"t2.csv", "r", ⟨"int64", 2, 0, 1/3, ["2", "3"], none⟩⟩] ∧
    (∀ rel ∈ find_relationships
        [⟨"t1.csv", "k", ⟨"int64", 2, 0, 1/3, ["1", "2"], none⟩⟩,
         ⟨"t2.csv", "r", ⟨"int64", 2, 0, 1/3, ["2", "3"], none⟩⟩],
      ∃ s1 s2 : ColStats,
        statsFor
          [⟨"t1.csv", "k", ⟨"int64", 2, 0, 1/3, ["1", "2"], none⟩⟩,
           ⟨"t2.csv", "r", ⟨"int64", 2, 0, 1/3, ["2", "3"], none⟩⟩]
          rel.pk_file rel.pk_column = some s1 ∧
        statsFor
          [⟨"t1.csv", "k", ⟨"int64", 2, 0, 1/3, ["1", "2"], none⟩⟩,
           ⟨"t2.csv", "r", ⟨"int64", 2, 0, 1/3, ["2", "3"], none⟩⟩]
          rel.fk_file rel.fk_column = some s2 ∧
        s1.unique_frac = s2.unique_frac) :=
  ⟨by decide,
    rel_sides_equal_uniqueness
      [⟨"t1.csv", "k", ⟨"int64", 2, 0, 1/3, ["1", "2"], none⟩⟩,
       ⟨"t2.csv", "r", ⟨"int64", 2, 0, 1/3, ["2", "3"], none⟩⟩] (by decide)⟩

/-! ## Claim C3 -/

/-- C3 (amended): text columns never produce a relationship candidate
in any run, mixed dtypes included — both sides of every emitted
candidate resolve in `column_stats` to records whose dtype is not
"object", because `find_relationships` skips every group whose dtype is
"object"; and when every profiled column is text the output is empty
outright.  In particular two text columns with identical names and
disjoint samples produce no candidate (and no name-similarity score
exists in the code). -/
theorem object_columns_never_matched (entries : List ColEntry)
    (hnd : NodupCols entries) :
    (∀ rel ∈ find_relationships entries,
      ∃ s1 s2 : ColStats,
        statsFor entries rel.pk_file rel.pk_column = some s1 ∧
        statsFor entries rel.fk_file rel.fk_column = some s2 ∧
        s1.dtype ≠ "object" ∧ s2.dtype ≠ "object") ∧
    ((∀ e ∈ entries, e.stats.dtype = "object") →
      find_relationships entries = []) := by
  constructor
  · intro rel hrel
    rcases rel_sides_stats hnd hrel with ⟨s1, s2, h1, h2, heq, -, hobj⟩
    exact ⟨s1, s2, h1, h2, hobj, heq ▸ hobj⟩
  · intro hobj
    rw [find_relationships_closed_form]
    rw [List.flatMap_eq_nil_iff]
    intro k hk
    rcases List.mem_map.1 (mem_uniqueInOrder.1 hk) with ⟨e, he, hke⟩
    have hk1 : k.1 = "object" := by
      rw [← hke, keyOf]
      exact hobj e he
    simp [hk1]

/-- C3 witness: the theorem applied to a concrete mixed run — two text
columns with identical names and disjoint sample values next to a pair
of numeric columns. -/
theorem object_columns_never_matched_witness :
    NodupCols
      [⟨"a.csv", "name", ⟨"object", 2, 0, 1, ["x", "y"], some ⟨1, 1, 1⟩⟩⟩,
       ⟨"b.csv", "name", ⟨"object", 2, 0, 1, ["u", "v"], some ⟨1, 1, 1⟩⟩⟩,
       ⟨"a.csv", "n", ⟨"int64", 1, 0, 1/2, ["5"], none⟩⟩,
       ⟨"b.csv", "m", ⟨"int64", 1, 0, 1/2, ["5"], none⟩⟩] ∧
    ((∀ rel ∈ find_relationships
        [⟨"a.csv", "name", ⟨"object", 2, 0, 1, ["x", "y"], some ⟨1, 1, 1⟩⟩⟩,
         ⟨"b.csv", "name", ⟨"object", 2, 0, 1, ["u", "v"], some ⟨1, 1, 1⟩⟩⟩,
         ⟨"a.csv", "n", ⟨"int64", 1, 0, 1/2, ["5"], none⟩⟩,
         ⟨"b.csv", "m", ⟨"int64", 1, 0, 1/2, ["5"], none⟩⟩],
      ∃ s1 s2 : ColStats,
        statsFor
          [⟨"a.csv", "name", ⟨"object", 2, 0, 1, ["x", "y"], some ⟨1, 1, 1⟩⟩⟩,
           ⟨"b.csv", "name", ⟨"object", 2, 0, 1, ["u", "v"], some ⟨1, 1, 1⟩⟩⟩,
           ⟨"a.csv", "n", ⟨"int64", 1, 0, 1/2, ["5"], none⟩⟩,
           ⟨"b.csv", "m", ⟨"int64", 1, 0, 1/2, ["5"], none⟩⟩]
          rel.pk_file rel.pk_column = some s1 ∧
        statsFor
          [⟨"a.csv", "name", ⟨"object", 2, 0, 1, ["x", "y"], some ⟨1, 1, 1⟩⟩⟩,
           ⟨"b.csv", "name", ⟨"object", 2, 0, 1, ["u", "v"], some ⟨1, 1, 1⟩⟩⟩,
           ⟨"a.csv", "n", ⟨"int64", 1, 0, 1/2, ["5"], none⟩⟩,
           ⟨"b.csv", "m", ⟨"int64", 1, 0, 1/2, ["5"], none⟩⟩]
          rel.fk_file rel.fk_column = some s2 ∧
        s1.dtype ≠ "object" ∧ s2.dtype ≠ "object") ∧
      ((∀ e ∈
          ([⟨"a.csv", "name", ⟨"object", 2, 0, 1, ["x", "y"], some ⟨1, 1, 1⟩⟩⟩,
            ⟨"b.csv", "name", ⟨"object", 2, 0, 1, ["u", "v"], some ⟨1, 1, 1⟩⟩⟩,
            ⟨"a.csv", "n", ⟨"int64", 1, 0, 1/2, ["5"], none⟩⟩,
            ⟨"b.csv", "m", ⟨"int64", 1, 0, 1/2, ["5"], none⟩⟩] : List ColEntry),
          e.stats.dtype = "object") →
        find_relationships
          [⟨"a.csv", "name", ⟨"object", 2, 0, 1, ["x", "y"], some ⟨1, 1, 1⟩⟩⟩,
           ⟨"b.csv", "name", ⟨"object", 2, 0, 1, ["u", "v"], some ⟨1, 1, 1⟩⟩⟩,
           ⟨"a.csv", "n", ⟨"int64", 1, 0, 1/2, ["5"], none⟩⟩,
           ⟨"b.csv", "m", ⟨"int64", 1, 0, 1/2, ["5"], none⟩⟩] = [])) :=
  ⟨by decide,
    object_columns_never_matched
      [⟨"a.csv", "name", ⟨"object", 2, 0, 1, ["x", "y"], some ⟨1, 1, 1⟩⟩⟩,
       ⟨"b.csv", "name", ⟨"object", 2, 0, 1, ["u", "v"], some ⟨1, 1, 1⟩⟩⟩,
       ⟨"a.csv", "n", ⟨"int64", 1, 0, 1/2, ["5"], none⟩⟩,
       ⟨"b.csv", "m", ⟨"int64", 1, 0, 1/2, ["5"], none⟩⟩] (by decide)⟩

/-- C3 counterexample: two profiled text columns in different files with
identical names and disjoint sample sets produce no candidate at all —
not, as claimed, a candidate with confidence 0.4. -/
theorem c3_text_columns_counterexample :
    analyze_column ⟨"object", [some "x", some "y"]⟩ =
      .ok ⟨"object", 2, 0, 1, ["x", "y"], some ⟨1, 1, 1⟩⟩ ∧
    analyze_column ⟨"object", [some "u", some "v"]⟩ =
      .ok ⟨"object", 2, 0, 1, ["u", "v"], some ⟨1, 1, 1⟩⟩ ∧
    find_relationships
      [⟨"a.csv", "name", ⟨"object", 2, 0, 1, ["x", "y"], some ⟨1, 1, 1⟩⟩⟩,
       ⟨"b.csv", "name", ⟨"object", 2, 0, 1, ["u", "v"], some ⟨1, 1, 1⟩⟩⟩] = [] :=
  ⟨by with_unfolding_all rfl, by with_unfolding_all rfl, by with_unfolding_all rfl⟩

/-! ## Claim C4 -/

/-- C4 (amended): the matcher's output is in discovery order — one
block per `(dtype, unique_ratio)` key in first-encounter order, each
block listing its accepted pairs in the group's stable uniqueness
order — and no sort by confidence is performed, so adjacent confidences
can increase. -/
theorem find_relationships_discovery_order (entries : List ColEntry) :
    find_relationships entries =
      (uniqueInOrder (entries.map keyOf)).flatMap (fun k =>
        let cols := entries.filter (fun e => decide (keyOf e = k))
        if 1 < cols.length ∧ k.1 ≠ "object" then groupRels cols else []) :=
  find_relationships_closed_form entries

/-- C4 counterexample: with the low-uniqueness group discovered first,
the matcher returns confidences 11/20 followed by 4/5 — an adjacent
pair in strictly increasing order, so the output is not sorted
descending by confidence. -/
theorem c4_not_sorted_counterexample :
    analyze_column ⟨"int64", [some "1", some "1", some "1", some "1"]⟩ =
      .ok ⟨"int64", 1, 0, 1/4, ["1"], none⟩ ∧
    analyze_column ⟨"int64", [some "2", some "2"]⟩ =
      .ok ⟨"int64", 1, 0, 1/2, ["2"], none⟩ ∧
    find_relationships
        [⟨"f1.csv", "a", ⟨"int64", 1, 0, 1/4, ["1"], none⟩⟩,
         ⟨"f2.csv", "b", ⟨"int64", 1, 0, 1/4, ["1"], none⟩⟩,
         ⟨"f1.csv", "c", ⟨"int64", 1, 0, 1/2, ["2"], none⟩⟩,
         ⟨"f2.csv", "d", ⟨"int64", 1, 0, 1/2, ["2"], none⟩⟩] =
      [{ pk_file := "f1.csv", pk_column := "a", fk_file := "f2.csv",
         fk_column := "b", confidence := 11/20 },
       { pk_file := "f1.csv", pk_column := "c", fk_file := "f2.csv",
         fk_column := "d", confidence := 4/5 }] ∧
    (11/20 : ℚ) < 4/5 :=
  ⟨by with_unfolding_all rfl, by with_unfolding_all rfl,
    by with_unfolding_all rfl, by with_unfolding_all decide⟩

/-! ## Claim C6 -/

/-- C6 (amended): the value-overlap factor of `_calculate_confidence`
equals the size of the intersection of the two string-normalized sample
sets divided by the size of the pk side's set (not the smaller of the
two sets), with the division-by-zero case yielding 0. -/
theorem sample_boost_closed_form (s1 s2 : List String) :
    sample_boost s1 s2 =
      ((s1.toFinset ∩ s2.toFinset).card : ℚ) / (s1.toFinset.card : ℚ) := by
  rw [sample_boost]
  by_cases hpos : 0 < (strSet s1).length
  · rw [if_pos hpos, interCount_eq_card, length_strSet]
  · rw [if_neg hpos]
    have h0 : s1.toFinset.card = 0 := by
      rw [← length_strSet]
      omega
    have hint : (s1.toFinset ∩ s2.toFinset).card = 0 :=
      Nat.le_zero.1 (le_trans (Finset.card_le_card Finset.inter_subset_left)
        (le_of_eq h0))
    rw [h0, hint]
    simp

/-- C6 counterexample: a scored pair with pk samples of two values and
fk samples of one shared value.  The code's factor is 1/2 (division by
the pk set size); the claimed `|inter| / min(|set1|, |set2|)` formula
gives 1, and the emitted confidence 13/20 reflects the former. -/
theorem c6_overlap_denominator_counterexample :
    analyze_column ⟨"int64", [some "1", some "2", some "1", some "2"]⟩ =
      .ok ⟨"int64", 2, 0, 1/2, ["1", "2"], none⟩ ∧
    analyze_column ⟨"int64", [some "1", some "1"]⟩ =
      .ok ⟨"int64", 1, 0, 1/2, ["1"], none⟩ ∧
    find_relationships
        [⟨"p.csv", "k", ⟨"int64", 2, 0, 1/2, ["1", "2"], none⟩⟩,
         ⟨"q.csv", "r", ⟨"int64", 1, 0, 1/2, ["1"], none⟩⟩] =
      [{ pk_file := "p.csv", pk_column := "k", fk_file := "q.csv",
         fk_column := "r", confidence := 13/20 }] ∧
    sample_boost ["1", "2"] ["1"] = 1/2 ∧
    overlapRatioSpec ["1", "2"] ["1"] = 1 ∧
    ¬ ((1/2 : ℚ) = 1) :=
  ⟨by with_unfolding_all rfl, by with_unfolding_all rfl,
    by with_unfolding_all rfl, by with_unfolding_all rfl,
    by with_unfolding_all rfl, by with_unfolding_all decide⟩

/-! ## Claim C2 -/

/-- C2: on a column with zero sampled rows the profiler does not
produce a zero cardinality ratio — it raises.  With the "object" dtype
an empty column fails first at `int(lengths.min())` (`ValueError`);
with any other dtype it fails at `unique_count / len(series)`
(`ZeroDivisionError`).  The exception is caught in `analyze_file`,
which skips the whole file, so no fingerprint is produced at all. -/
theorem c2_zero_rows_raise :
    analyze_column ⟨"object", ([] : List (Option String))⟩ = .err .valueError ∧
    analyze_column ⟨"int64", ([] : List (Option String))⟩ =
      .err .zeroDivisionError :=
  ⟨by with_unfolding_all rfl, by with_unfolding_all rfl⟩

/-! ## Claim C5 -/

/-- C5: profiling a text column with zero non-null values raises
instead of producing a fingerprint with omitted length statistics:
the length series is empty, so `int(lengths.min())` is `int(nan)` and
raises `ValueError`; `analyze_file` catches it and drops the file. -/
theorem c5_all_null_text_raises :
    analyze_column ⟨"object", [none, none]⟩ = .err .valueError := by
  with_unfolding_all rfl

/-! ## Claim C8 -/

/-- C8 (amended): `sample_values` is exactly the first-5-truncation of
the column's distinct non-null values in first-occurrence order
(`uniqueInOrder`, the order-preserving deduplication characterized by
the lemmas above); consequently it is duplicate-free, has at most 5
elements — not the claimed 20 — is a subsequence of the non-null values
in their original encounter order, and contains every distinct value
whenever the column has at most 5 of them. -/
theorem sample_values_first_five (c : Column) (s : ColStats)
    (h : analyze_column c = .ok s) :
    s.sample_values = (uniqueInOrder (c.values.filterMap id)).take 5 ∧
    s.sample_values.Nodup ∧
    s.sample_values.length ≤ 5 ∧
    s.sample_values.Sublist (c.values.filterMap id) ∧
    (s.unique_count ≤ 5 → ∀ v : String, some v ∈ c.values → v ∈ s.sample_values) := by
  obtain ⟨-, -, hcount, -, -, hsv⟩ := analyze_column_ok h
  rw [hsv]
  refine ⟨rfl, (nodup_uniqueInOrder _).sublist (List.take_sublist 5 _), ?_, ?_, ?_⟩
  · exact List.length_take_le 5 _
  · exact (List.take_sublist 5 _).trans (sublist_uniqueInOrder _)
  · intro h5 v hv
    rw [hcount] at h5
    rw [List.take_of_length_le h5]
    exact mem_uniqueInOrder.2 (List.mem_filterMap.2 ⟨some v, hv, rfl⟩)

/-- C8 witness: the theorem applied to a concrete numeric column with
a null and a repeated value. -/
theorem sample_values_first_five_witness :
    analyze_column ⟨"int64", [some "7", some "8", none, some "7"]⟩ =
      .ok ⟨"int64", 2, 1, 1/2, ["7", "8"], none⟩ ∧
    ((["7", "8"] : List String) =
        (uniqueInOrder (([some "7", some "8", none, some "7"] :
          List (Option String)).filterMap id)).take 5 ∧
      (["7", "8"] : List String).Nodup ∧
      (["7", "8"] : List String).length ≤ 5 ∧
      (["7", "8"] : List String).Sublist
        (([some "7", some "8", none, some "7"] : List (Option String)).filterMap id) ∧
      ((2 : Nat) ≤ 5 → ∀ v : String,
        some v ∈ ([some "7", some "8", none, some "7"] : List (Option String)) →
          v ∈ (["7", "8"] : List String))) :=
  ⟨by with_unfolding_all rfl,
    sample_values_first_five ⟨"int64", [some "7", some "8", none, some "7"]⟩
      ⟨"int64", 2, 1, 1/2, ["7", "8"], none⟩ (by with_unfolding_all rfl)⟩

/-- C8 counterexample: a column with six distinct values keeps only the
first five in `sample_values` (`unique()[:5]`), while the claimed
"first 20 distinct values" would keep all six. -/
theorem c8_sample_cap_counterexample :
    analyze_column
        ⟨"int64", [some "1", some "2", some "3", some "4", some "5", some "6"]⟩ =
      .ok ⟨"int64", 6, 0, 1, ["1", "2", "3", "4", "5"], none⟩ ∧
    (uniqueInOrder
        (([some "1", some "2", some "3", some "4", some "5", some "6"] :
          List (Option String)).filterMap id)).take 20 =
      ["1", "2", "3", "4", "5", "6"] :=
  ⟨by with_unfolding_all rfl, by with_unfolding_all rfl⟩

/-! ## Claim C7 -/

/-- C7: per file, every column's primary-key score is
`unique_ratio * (1 - null_count / row_count)`, halved for text columns
unless all value lengths are equal and the mean length is below 20; a
column is suggested only when it attains the maximum score and that
score exceeds 0.8, and otherwise the file gets no suggestion.  The
hypotheses delimit the runs the embedding models: at least one sampled
row, pandas-produced (non-empty) column names, and length statistics
present on stored text columns. -/
theorem suggested_primary_key_spec (rc : Nat) (cols : List (String × ColStats))
    (hrc : 0 < rc)
    (hnames : ∀ p ∈ cols, p.1 ≠ "")
    (hlens : ∀ p ∈ cols, p.2.dtype = "object" → p.2.len_stats.isSome = true) :
    (∀ p ∈ cols, pk_score rc p.2 =
        p.2.unique_frac * (1 - (p.2.null_count : ℚ) / (rc : ℚ)) *
          (if p.2.dtype = "object" ∧ looksLikeId p.2 = false then 1 / 2 else 1)) ∧
    (∀ name, suggested_primary_key rc cols = some name →
        ∃ st, (name, st) ∈ cols ∧ (8 : ℚ) / 10 < pk_score rc st ∧
          ∀ p ∈ cols, pk_score rc p.2 ≤ pk_score rc st) ∧
    (suggested_primary_key rc cols = none →
        ∀ p ∈ cols, pk_score rc p.2 ≤ (8 : ℚ) / 10) := by
  obtain ⟨hle, hub, hshape⟩ := bestPkFold_loop rc cols (none, 0)
  refine ⟨?_, ?_, ?_⟩
  · intro p hp
    rw [pk_score, looksLikeId]
    rcases hls : p.2.len_stats with _ | ls
    · by_cases hd : p.2.dtype = "object"
      · simp [hd]
      · simp [hd]
    · by_cases hd : p.2.dtype = "object"
      · by_cases hid : ls.min_len = ls.max_len ∧ ls.avg_len < 20
        · simp [hd, hid]
        · simp [hd, hid]
      · simp [hd]
  · intro name hname
    rcases hbf : cols.foldl (fun acc c =>
        if acc.2 < pk_score rc c.2 then (some c.1, pk_score rc c.2) else acc)
        (none, 0) with ⟨bp, bs⟩
    have hbf' : bestPkFold rc cols = (bp, bs) := hbf
    rcases bp with _ | n
    · simp only [suggested_primary_key, hbf'] at hname
      exact absurd hname (by simp)
    · simp only [suggested_primary_key, hbf'] at hname
      by_cases hcond : n ≠ "" ∧ (8 : ℚ) / 10 < bs
      · rw [if_pos hcond] at hname
        have hn : n = name := Option.some.inj hname
        subst hn
        rcases hshape with heq | ⟨n', st, h1, h2, h3⟩
        · have hcontra := hbf.symm.trans heq
          exact absurd (congrArg Prod.fst hcontra) (by simp)
        · rw [hbf] at h1 h3
          have hn' : n = n' := by simpa using h1
          subst hn'
          refine ⟨st, h2, ?_, ?_⟩
          · rw [h3]
            exact hcond.2
          · intro p hp
            rw [h3]
            have hres := hub p hp
            rw [hbf] at hres
            exact hres
      · rw [if_neg hcond] at hname
        exact absurd hname (by simp)
  · intro hnone p hp
    rcases hbf : cols.foldl (fun acc c =>
        if acc.2 < pk_score rc c.2 then (some c.1, pk_score rc c.2) else acc)
        (none, 0) with ⟨bp, bs⟩
    have hbf' : bestPkFold rc cols = (bp, bs) := hbf
    have hple := hub p hp
    rw [hbf] at hple
    rcases bp with _ | n
    · rcases hshape with heq | ⟨n', st, h1, h2, h3⟩
      · have hcontra := hbf.symm.trans heq
        have hbs : bs = 0 := congrArg Prod.snd hcontra
        rw [hbs] at hple
        exact le_trans hple (by norm_num)
      · rw [hbf] at h1
        exact absurd h1 (by simp)
    · simp only [suggested_primary_key, hbf'] at hnone
      rcases hshape with heq | ⟨n', st, h1, h2, h3⟩
      · have hcontra := hbf.symm.trans heq
        exact absurd (congrArg Prod.fst hcontra) (by simp)
      · rw [hbf] at h1
        have hn' : n = n' := by simpa using h1
        subst hn'
        have hnn : n ≠ "" := hnames (n, st) h2
        by_cases hgt : (8 : ℚ) / 10 < bs
        · rw [if_pos ⟨hnn, hgt⟩] at hnone
          exact absurd hnone (by simp)
        · exact le_trans hple (not_lt.1 hgt)

/-- C7 witness: a file with four rows, a fully unique integer column
"id" (score 1 > 0.8, suggested) and a half-unique fixed-width text
column "name" (score 1/2). -/
theorem suggested_primary_key_spec_witness :
    ((0 : Nat) < 4 ∧
      (∀ p ∈ ([("id", ⟨"int64", 4, 0, 1, ["1", "2", "3", "4"], none⟩),
          ("name", ⟨"object", 2, 0, 1/2, ["ab", "cd"], some ⟨2, 2, 2⟩⟩)] :
          List (String × ColStats)), p.1 ≠ "") ∧
      (∀ p ∈ ([("id", ⟨"int64", 4, 0, 1, ["1", "2", "3", "4"], none⟩),
          ("name", ⟨"object", 2, 0, 1/2, ["ab", "cd"], some ⟨2, 2, 2⟩⟩)] :
          List (String × ColStats)),
        p.2.dtype = "object" → p.2.len_stats.isSome = true)) ∧
    ((∀ p ∈ ([("id", ⟨"int64", 4, 0, 1, ["1", "2", "3", "4"], none⟩),
        ("name", ⟨"object", 2, 0, 1/2, ["ab", "cd"], some ⟨2, 2, 2⟩⟩)] :
        List (String × ColStats)), pk_score 4 p.2 =
          p.2.unique_frac * (1 - (p.2.null_count : ℚ) / ((4 : Nat) : ℚ)) *
            (if p.2.dtype = "object" ∧ looksLikeId p.2 = false then 1 / 2 else 1)) ∧
      (∀ name, suggested_primary_key 4
          [("id", ⟨"int64", 4, 0, 1, ["1", "2", "3", "4"], none⟩),
           ("name", ⟨"object", 2, 0, 1/2, ["ab", "cd"], some ⟨2, 2, 2⟩⟩)] = some name →
          ∃ st, (name, st) ∈
              ([("id", ⟨"int64", 4, 0, 1, ["1", "2", "3", "4"], none⟩),
                ("name", ⟨"object", 2, 0, 1/2, ["ab", "cd"], some ⟨2, 2, 2⟩⟩)] :
                List (String × ColStats)) ∧
            (8 : ℚ) / 10 < pk_score 4 st ∧
            ∀ p ∈ ([("id", ⟨"int64", 4, 0, 1, ["1", "2", "3", "4"], none⟩),
                ("name", ⟨"object", 2, 0, 1/2, ["ab", "cd"], some ⟨2, 2, 2⟩⟩)] :
                List (String × ColStats)), pk_score 4 p.2 ≤ pk_score 4 st) ∧
      (suggested_primary_key 4
          [("id", ⟨"int64", 4, 0, 1, ["1", "2", "3", "4"], none⟩),
           ("name", ⟨"object", 2, 0, 1/2, ["ab", "cd"], some ⟨2, 2, 2⟩⟩)] = none →
          ∀ p ∈ ([("id", ⟨"int64", 4, 0, 1, ["1", "2", "3", "4"], none⟩),
              ("name", ⟨"object", 2, 0, 1/2, ["ab", "cd"], some ⟨2, 2, 2⟩⟩)] :
              List (String × ColStats)), pk_score 4 p.2 ≤ (8 : ℚ) / 10)) :=
  ⟨⟨by decide, by decide, by decide⟩,
    suggested_primary_key_spec 4
      [("id", ⟨"int64", 4, 0, 1, ["1", "2", "3", "4"], none⟩),
       ("name", ⟨"object", 2, 0, 1/2, ["ab", "cd"], some ⟨2, 2, 2⟩⟩)]
      (by decide) (by decide) (by decide)⟩

end CsvAnalyser
